import Mathlib

/-!
Verification of the bitt trading system's core against its specification.

The Python `decimal.Decimal` values are modelled as exact rationals (`ℚ`):
the code pins a 28-digit decimal context precisely to keep financial
arithmetic exact, and every claim under study is stated over exact decimal
arithmetic.  Monetary amounts, prices and quantities therefore live in `ℚ`,
timestamps in `ℕ`, and Python exceptions are modelled with `Except String`.
-/

namespace Bitt

/-- `OrderSide` from `src/core/order_types.py`. -/
inductive OrderSide where
  | buy
  | sell
deriving DecidableEq, Repr

/-- Backtest `Position` dataclass from `src/backtest/portfolio.py`
(`last_updated` is dropped: no claim mentions wall-clock metadata). -/
structure Position where
  symbol : String
  quantity : ℚ := 0
  averagePrice : ℚ := 0
  realizedPnl : ℚ := 0
  unrealizedPnl : ℚ := 0
  marketPrice : ℚ := 0
deriving DecidableEq, Repr

/-- `Position.market_value` from `src/backtest/portfolio.py`. -/
def Position.marketValue (position : Position) : ℚ :=
  position.quantity * position.marketPrice

/-- `Position.update_market_price` from `src/backtest/portfolio.py`:
stores the new mark price and refreshes unrealized PnL unless flat. -/
def Position.updateMarketPrice (position : Position) (newPrice : ℚ) : Position :=
  { position with
    marketPrice := newPrice,
    unrealizedPnl :=
      if position.quantity = 0 then position.unrealizedPnl
      else (newPrice - position.averagePrice) * position.quantity }

/-- `Portfolio._update_position` from `src/backtest/portfolio.py`, the exact
branch structure of the Python code: buy extends a long (weighted-average cost)
or covers a short (realizing PnL, flipping on a remainder); sell extends a
short or closes a long symmetrically. -/
def updatePosition (position : Position) (side : OrderSide)
    (quantity price commission : ℚ) : Position :=
  match side with
  | .buy =>
    if 0 ≤ position.quantity then
      let totalCost := position.quantity * position.averagePrice + quantity * price
      let newQuantity := position.quantity + quantity
      { position with
        quantity := newQuantity,
        averagePrice := if 0 < newQuantity then totalCost / newQuantity else 0 }
    else
      if |position.quantity| ≤ quantity then
        let coverQuantity := |position.quantity|
        let realized := (position.averagePrice - price) * coverQuantity - commission
        let remaining := quantity - coverQuantity
        if 0 < remaining then
          { position with
            quantity := remaining,
            averagePrice := price,
            realizedPnl := position.realizedPnl + realized }
        else
          { position with
            quantity := 0,
            averagePrice := 0,
            realizedPnl := position.realizedPnl + realized }
      else
        let realized := (position.averagePrice - price) * quantity - commission
        { position with
          realizedPnl := position.realizedPnl + realized,
          quantity := position.quantity + quantity }
  | .sell =>
    if position.quantity ≤ 0 then
      let totalCost := |position.quantity| * position.averagePrice + quantity * price
      let newQuantity := position.quantity - quantity
      { position with
        quantity := newQuantity,
        averagePrice := if newQuantity ≠ 0 then totalCost / |newQuantity| else 0 }
    else
      if position.quantity ≤ quantity then
        let sellQuantity := position.quantity
        let realized := (price - position.averagePrice) * sellQuantity - commission
        let remaining := quantity - sellQuantity
        if 0 < remaining then
          { position with
            quantity := -remaining,
            averagePrice := price,
            realizedPnl := position.realizedPnl + realized }
        else
          { position with
            quantity := 0,
            averagePrice := 0,
            realizedPnl := position.realizedPnl + realized }
      else
        let realized := (price - position.averagePrice) * quantity - commission
        { position with
          realizedPnl := position.realizedPnl + realized,
          quantity := position.quantity - quantity }

/-- `FillEvent` from `src/backtest/events.py` (the fields `update_fill`
consumes). -/
structure FillEvent where
  symbol : String
  side : OrderSide
  quantity : ℚ
  fillPrice : ℚ
  commission : ℚ
deriving DecidableEq, Repr

/-- Backtest `Portfolio` state from `src/backtest/portfolio.py`; the
`positions` dict is modelled as an association list keyed by
`Position.symbol`. -/
structure Portfolio where
  initialCapital : ℚ
  cash : ℚ
  totalCommission : ℚ
  positions : List Position
deriving DecidableEq, Repr

/-- `Portfolio.__init__`. -/
def Portfolio.start (initialCapital : ℚ) : Portfolio :=
  { initialCapital := initialCapital,
    cash := initialCapital,
    totalCommission := 0,
    positions := [] }

/-- Dict read `self.positions.get(symbol)`: the first entry with a matching
symbol. -/
def getPos : List Position → String → Option Position
  | [], _ => none
  | p :: rest, sym => if p.symbol = sym then some p else getPos rest sym

/-- Dict write `self.positions[symbol] = position`: replace the first entry
with the same symbol, or insert at the end. -/
def setPos : List Position → Position → List Position
  | [], q => [q]
  | p :: rest, q => if p.symbol = q.symbol then q :: rest else p :: setPos rest q

/-- `Portfolio.update_fill` from `src/backtest/portfolio.py`: update the
position, move cash by quantity×price ± commission, accumulate total
commission. -/
def updateFill (portfolio : Portfolio) (fill : FillEvent) : Portfolio :=
  let position := (getPos portfolio.positions fill.symbol).getD { symbol := fill.symbol }
  let position := updatePosition position fill.side fill.quantity fill.fillPrice fill.commission
  { portfolio with
    positions := setPos portfolio.positions position,
    cash :=
      match fill.side with
      | .buy => portfolio.cash - (fill.quantity * fill.fillPrice + fill.commission)
      | .sell => portfolio.cash + (fill.quantity * fill.fillPrice - fill.commission),
    totalCommission := portfolio.totalCommission + fill.commission }

/-- `Portfolio.update_market_data`: refresh the mark price of the symbol's
position when one exists. -/
def updateMarketData (portfolio : Portfolio) (symbol : String) (price : ℚ) : Portfolio :=
  match getPos portfolio.positions symbol with
  | none => portfolio
  | some position =>
    { portfolio with
      positions := setPos portfolio.positions (position.updateMarketPrice price) }

/-- `Portfolio.calculate_total_equity`: cash plus the market value of every
non-flat position. -/
def calculateTotalEquity (portfolio : Portfolio) : ℚ :=
  portfolio.cash +
    ((portfolio.positions.filter (fun p => p.quantity ≠ 0)).map Position.marketValue).sum

/-- The two portfolio-mutating backtest events relevant to the ledger: fills
(`update_fill`) and market-data updates (`update_market_data`). -/
inductive BEvent where
  | fill (event : FillEvent)
  | market (symbol : String) (price : ℚ)
deriving DecidableEq, Repr

/-- One event applied to the portfolio. -/
def stepEvent (portfolio : Portfolio) : BEvent → Portfolio
  | .fill e => updateFill portfolio e
  | .market sym price => updateMarketData portfolio sym price

/-- A whole event sequence applied in order. -/
def applyEvents (portfolio : Portfolio) (events : List BEvent) : Portfolio :=
  events.foldl stepEvent portfolio

/-- The traded quantity carried by an event (zero for market updates). -/
def eventQuantity : BEvent → ℚ
  | .fill e => e.quantity
  | .market _ _ => 0

/-- A fill only extends exposure (no part of it closes an open position):
a buy against a non-negative position, or a sell against a non-positive one.
Exactly on these fills `_update_position` books no realized PnL, so their
commission is not netted into realized PnL. -/
def isExtendFill (portfolio : Portfolio) (fill : FillEvent) : Bool :=
  let q := ((getPos portfolio.positions fill.symbol).getD { symbol := fill.symbol }).quantity
  match fill.side with
  | .buy => 0 ≤ q
  | .sell => q ≤ 0

/-- Total commission charged on extend-only fills along an event sequence. -/
def extendCommissions (portfolio : Portfolio) : List BEvent → ℚ
  | [] => 0
  | e :: rest =>
    (match e with
     | .fill f => if isExtendFill portfolio f then f.commission else 0
     | .market _ _ => 0) + extendCommissions (stepEvent portfolio e) rest

/-- Sum of a per-position quantity over the positions dict. -/
def sumBy (f : Position → ℚ) (positions : List Position) : ℚ :=
  (positions.map f).sum

/-- Total realized PnL over all positions (`realized_pnl` as the code books
it: net of the commissions of closing fills). -/
def realizedSum (portfolio : Portfolio) : ℚ :=
  sumBy Position.realizedPnl portfolio.positions

/-- Total mark-to-market (unrealized) PnL over all positions. -/
def unrealizedMarkSum (portfolio : Portfolio) : ℚ :=
  sumBy (fun p => (p.marketPrice - p.averagePrice) * p.quantity) portfolio.positions

/-- Cost basis minus realized PnL of one position: the part of the ledger the
cash account must mirror. -/
def positionExcess (p : Position) : ℚ := p.quantity * p.averagePrice - p.realizedPnl

/-- Cash plus cost basis minus realized PnL over the whole book. -/
def ledgerExcess (portfolio : Portfolio) : ℚ :=
  portfolio.cash + sumBy positionExcess portfolio.positions

lemma updatePosition_symbol (position : Position) (side : OrderSide) (q pr c : ℚ) :
    (updatePosition position side q pr c).symbol = position.symbol := by
  cases side <;> simp only [updatePosition] <;>
    repeat' first | split | rfl

lemma sumBy_cons (f : Position → ℚ) (p : Position) (rest : List Position) :
    sumBy f (p :: rest) = f p + sumBy f rest := by
  simp [sumBy]

lemma getPos_symbol (positions : List Position) (sym : String) (p : Position)
    (h : getPos positions sym = some p) : p.symbol = sym := by
  induction positions with
  | nil => simp [getPos] at h
  | cons q rest ih =>
    by_cases hq : q.symbol = sym
    · rw [getPos, if_pos hq] at h
      cases h
      exact hq
    · rw [getPos, if_neg hq] at h
      exact ih h

lemma sumBy_setPos (f : Position → ℚ) (positions : List Position) (q : Position)
    (hf : ∀ sym, f { symbol := sym } = 0) :
    sumBy f (setPos positions q) =
      sumBy f positions + f q - f ((getPos positions q.symbol).getD { symbol := q.symbol }) := by
  induction positions with
  | nil => simp [setPos, sumBy, getPos, hf]
  | cons p rest ih =>
    by_cases h : p.symbol = q.symbol
    · rw [setPos, if_pos h, getPos, if_pos h]
      simp only [sumBy_cons, Option.getD_some]
      ring
    · rw [setPos, if_neg h, getPos, if_neg h]
      rw [sumBy_cons, sumBy_cons, ih]
      ring

lemma positionExcess_default (sym : String) : positionExcess { symbol := sym } = 0 := by
  simp [positionExcess]

/-- The ledger effect of one `_update_position` call: cost basis moves by the
traded notional (signed by side) and, on a fill that closes or flips, the
commission is absorbed into realized PnL. -/
lemma updatePosition_excess (position : Position) (side : OrderSide) (q pr c : ℚ)
    (hq : 0 ≤ q) :
    positionExcess (updatePosition position side q pr c) =
      positionExcess position +
        (match side with
         | .buy => q * pr + (if 0 ≤ position.quantity then 0 else c)
         | .sell => -(q * pr) + (if position.quantity ≤ 0 then 0 else c)) := by
  cases side
  case buy =>
    simp only [updatePosition, positionExcess]
    by_cases h0 : 0 ≤ position.quantity
    · simp only [if_pos h0]
      by_cases hpos : 0 < position.quantity + q
      · simp only [if_pos hpos]
        field_simp
        ring
      · have hq0 : position.quantity = 0 := by linarith
        have hqq : q = 0 := by linarith
        simp only [if_neg hpos, hq0, hqq]
        ring
    · have hneg : position.quantity < 0 := lt_of_not_ge h0
      simp only [if_neg h0, abs_of_neg hneg]
      by_cases hcov : -position.quantity ≤ q
      · simp only [if_pos hcov]
        by_cases hrem : 0 < q - -position.quantity
        · simp only [if_pos hrem]
          ring
        · have hqe : q = -position.quantity := by linarith
          rw [if_neg hrem]
          dsimp only
          rw [hqe]
          ring
      · simp only [if_neg hcov]
        ring
  case sell =>
    simp only [updatePosition, positionExcess]
    by_cases h0 : position.quantity ≤ 0
    · simp only [if_pos h0, abs_of_nonpos h0]
      by_cases hnz : position.quantity - q ≠ 0
      · have hlt : position.quantity - q < 0 := lt_of_le_of_ne (by linarith) hnz
        simp only [if_pos hnz, abs_of_neg hlt]
        have hne : q - position.quantity ≠ 0 := by intro h; apply hnz; linarith
        field_simp
        ring
      · simp only [if_neg hnz]
        have hq0 : position.quantity = 0 := by
          have h := not_ne_iff.mp hnz
          linarith
        have hqq : q = 0 := by
          have h := not_ne_iff.mp hnz
          linarith
        simp [hq0, hqq]
    · have hpos : 0 < position.quantity := lt_of_not_ge h0
      simp only [if_neg h0]
      by_cases hcl : position.quantity ≤ q
      · simp only [if_pos hcl]
        by_cases hrem : 0 < q - position.quantity
        · simp only [if_pos hrem]
          ring
        · have hqe : q = position.quantity := by linarith
          rw [if_neg hrem]
          dsimp only
          rw [hqe]
          ring
      · simp only [if_neg hcl]
        ring

/-- One fill moves the ledger excess down by exactly the commission of an
extend-only fill, and not at all otherwise (that commission is inside
realized PnL). -/
lemma ledgerExcess_updateFill (p : Portfolio) (f : FillEvent) (hq : 0 ≤ f.quantity) :
    ledgerExcess (updateFill p f) =
      ledgerExcess p - (if isExtendFill p f then f.commission else 0) := by
  have hsym : (updatePosition ((getPos p.positions f.symbol).getD { symbol := f.symbol })
      f.side f.quantity f.fillPrice f.commission).symbol = f.symbol := by
    rw [updatePosition_symbol]
    cases hg : getPos p.positions f.symbol with
    | none => simp
    | some pos => simpa using getPos_symbol _ _ _ hg
  rw [ledgerExcess, updateFill]
  simp only
  rw [sumBy_setPos _ _ _ positionExcess_default, hsym,
    updatePosition_excess _ _ _ _ _ hq]
  rw [ledgerExcess, isExtendFill]
  cases f.side with
  | buy =>
    simp only
    by_cases hext : (0 : ℚ) ≤ ((getPos p.positions f.symbol).getD { symbol := f.symbol }).quantity
    · rw [if_pos hext, if_pos (by exact decide_eq_true (by exact hext))]
      ring
    · rw [if_neg hext, if_neg (by simpa using hext)]
      ring
  | sell =>
    simp only
    by_cases hext : ((getPos p.positions f.symbol).getD { symbol := f.symbol }).quantity ≤ (0 : ℚ)
    · rw [if_pos hext, if_pos (by exact decide_eq_true (by exact hext))]
      ring
    · rw [if_neg hext, if_neg (by simpa using hext)]
      ring

/-- Market-data updates do not touch cash, cost basis or realized PnL. -/
lemma ledgerExcess_updateMarketData (p : Portfolio) (sym : String) (price : ℚ) :
    ledgerExcess (updateMarketData p sym price) = ledgerExcess p := by
  rw [ledgerExcess, updateMarketData]
  cases hg : getPos p.positions sym with
  | none => rfl
  | some pos =>
    have hsym : pos.symbol = sym := getPos_symbol _ _ _ hg
    simp only
    rw [sumBy_setPos _ _ _ positionExcess_default]
    have h1 : (pos.updateMarketPrice price).symbol = pos.symbol := rfl
    rw [h1, hsym, hg]
    have h2 : positionExcess (pos.updateMarketPrice price) = positionExcess pos := by
      simp [Position.updateMarketPrice, positionExcess]
    rw [h2]
    simp [ledgerExcess]

/-- The ledger excess over a whole event sequence drops by exactly the total
commission of extend-only fills. -/
lemma ledgerExcess_applyEvents (p : Portfolio) (events : List BEvent)
    (hq : ∀ e ∈ events, 0 ≤ eventQuantity e) :
    ledgerExcess (applyEvents p events) = ledgerExcess p - extendCommissions p events := by
  induction events generalizing p with
  | nil => simp [applyEvents, extendCommissions]
  | cons e rest ih =>
    have hstep : applyEvents p (e :: rest) = applyEvents (stepEvent p e) rest := rfl
    rw [hstep, ih (stepEvent p e) (fun x hx => hq x (List.mem_cons_of_mem _ hx))]
    cases e with
    | fill f =>
      have hf : (0 : ℚ) ≤ f.quantity := hq _ (List.mem_cons_self _ _)
      rw [extendCommissions]
      simp only [stepEvent]
      rw [ledgerExcess_updateFill p f hf]
      ring
    | market sym price =>
      rw [extendCommissions]
      simp only [stepEvent]
      rw [ledgerExcess_updateMarketData]
      ring

/-- Flat positions contribute nothing, so the non-flat filter in
`calculate_total_equity` can be dropped. -/
lemma calculateTotalEquity_eq (p : Portfolio) :
    calculateTotalEquity p =
      p.cash + sumBy (fun pos => pos.quantity * pos.marketPrice) p.positions := by
  rw [calculateTotalEquity]
  congr 1
  induction p.positions with
  | nil => simp [sumBy]
  | cons q rest ih =>
    rw [List.filter_cons]
    split
    · rw [List.map_cons, List.sum_cons, ih, sumBy_cons, Position.marketValue]
    · next h =>
      have hq0 : q.quantity = 0 := by simpa using h
      rw [ih, sumBy_cons, hq0]
      ring

lemma sumBy_split (positions : List Position) :
    sumBy (fun pos => pos.quantity * pos.marketPrice) positions =
      sumBy (fun pos => pos.quantity * pos.averagePrice) positions +
        sumBy (fun pos => (pos.marketPrice - pos.averagePrice) * pos.quantity) positions := by
  induction positions with
  | nil => simp [sumBy]
  | cons q rest ih =>
    rw [sumBy_cons, sumBy_cons, sumBy_cons, ih]
    ring

lemma sumBy_excess_split (positions : List Position) :
    sumBy positionExcess positions =
      sumBy (fun pos => pos.quantity * pos.averagePrice) positions -
        sumBy Position.realizedPnl positions := by
  induction positions with
  | nil => simp [sumBy]
  | cons q rest ih =>
    rw [sumBy_cons, sumBy_cons, sumBy_cons, ih, positionExcess]
    ring

/-- Fill/market sequence exhibiting both gaps in the claimed reconciliation
formula: a mark price away from the average entry price, and a commission on
a closing fill. -/
def c1Events : List BEvent :=
  [ .fill { symbol := "BTC", side := .buy, quantity := 1, fillPrice := 100, commission := 1 },
    .fill { symbol := "BTC", side := .sell, quantity := 2, fillPrice := 110, commission := 2 },
    .market "BTC" 120 ]

/-- C1, counterexample: after buy 1 @ 100 (commission 1), sell 2 @ 110
(commission 2) and a mark to 120, the claimed reconciliation
`cash + Σ(quantity × markPrice) = initialCapital + Σ realizedPnL − Σ commission`
fails: the left side is 997 while the right side is 1005 — the claimed
formula omits mark-to-market PnL and double-counts the commissions of
closing fills (which `_update_position` already nets into realized PnL). -/
theorem c1_counterexample :
    calculateTotalEquity (applyEvents (Portfolio.start 1000) c1Events) ≠
      1000 + realizedSum (applyEvents (Portfolio.start 1000) c1Events) -
        (applyEvents (Portfolio.start 1000) c1Events).totalCommission := by
  norm_num [c1Events, applyEvents, stepEvent, updateFill, updateMarketData, updatePosition,
    getPos, setPos, calculateTotalEquity, Position.marketValue, Position.updateMarketPrice,
    realizedSum, sumBy, Portfolio.start]

/-- C1, amended: for every sequence of fill and market-data events (fills with
non-negative quantity) applied to a backtest `Portfolio`, at every
equity-curve sample point the ledger reconciles exactly:
`cash + Σ(position.quantity × markPrice)` equals initial capital plus the sum
of realized PnL, plus the mark-to-market (unrealized) PnL of the open
positions, minus the commissions of extend-only fills — the commissions of
closing fills are already netted inside realized PnL. -/
theorem c1_ledger_reconciliation (initialCapital : ℚ) (events : List BEvent)
    (hq : ∀ e ∈ events, 0 ≤ eventQuantity e) :
    calculateTotalEquity (applyEvents (Portfolio.start initialCapital) events) =
      initialCapital
        + realizedSum (applyEvents (Portfolio.start initialCapital) events)
        + unrealizedMarkSum (applyEvents (Portfolio.start initialCapital) events)
        - extendCommissions (Portfolio.start initialCapital) events := by
  have hfold := ledgerExcess_applyEvents (Portfolio.start initialCapital) events hq
  have hstart : ledgerExcess (Portfolio.start initialCapital) = initialCapital := by
    simp [ledgerExcess, Portfolio.start, sumBy]
  rw [hstart] at hfold
  rw [calculateTotalEquity_eq, sumBy_split]
  have hx := sumBy_excess_split (applyEvents (Portfolio.start initialCapital) events).positions
  rw [ledgerExcess] at hfold
  rw [realizedSum, unrealizedMarkSum]
  linarith [hfold, hx]

/-- C1, witness: the amended reconciliation instantiated on the concrete
buy/sell/mark sequence used in the counterexample. -/
theorem c1_ledger_reconciliation_witness :
    (∀ e ∈ c1Events, 0 ≤ eventQuantity e) ∧
      calculateTotalEquity (applyEvents (Portfolio.start 1000) c1Events) =
        1000
          + realizedSum (applyEvents (Portfolio.start 1000) c1Events)
          + unrealizedMarkSum (applyEvents (Portfolio.start 1000) c1Events)
          - extendCommissions (Portfolio.start 1000) c1Events :=
  ⟨by decide, c1_ledger_reconciliation 1000 c1Events (by decide)⟩

/-- C4: in the backtest `Portfolio`, a sell while long closes up to the held
size, realizing PnL = (fillPrice − avgPrice) × soldQty − commission with
soldQty = min(sellQty, heldQty); any remainder flips the position to short at
the fill price, a partial sale keeps the average price, and an exact sale
flattens the position. -/
theorem c4_sell_while_long (position : Position) (q pr c : ℚ)
    (hlong : 0 < position.quantity) :
    (updatePosition position .sell q pr c).realizedPnl =
        position.realizedPnl + (pr - position.averagePrice) * min q position.quantity - c
      ∧ (position.quantity < q →
          (updatePosition position .sell q pr c).quantity = -(q - position.quantity)
            ∧ (updatePosition position .sell q pr c).averagePrice = pr)
      ∧ (q < position.quantity →
          (updatePosition position .sell q pr c).quantity = position.quantity - q
            ∧ (updatePosition position .sell q pr c).averagePrice = position.averagePrice)
      ∧ (q = position.quantity →
          (updatePosition position .sell q pr c).quantity = 0) := by
  have h0 : ¬ position.quantity ≤ 0 := not_le.mpr hlong
  simp only [updatePosition, if_neg h0]
  by_cases hcl : position.quantity ≤ q
  · simp only [if_pos hcl]
    by_cases hrem : 0 < q - position.quantity
    · simp only [if_pos hrem]
      refine ⟨?_, ?_, ?_, ?_⟩
      · have hmin : min q position.quantity = position.quantity := min_eq_right hcl
        rw [hmin]
        ring
      · intro _; exact ⟨by trivial, by trivial⟩
      · intro hlt; exact absurd hcl (not_le.mpr hlt)
      · intro heq; exfalso; rw [heq] at hrem; simp at hrem
    · have heq : q = position.quantity := le_antisymm (by linarith) hcl
      simp only [if_neg hrem]
      refine ⟨?_, ?_, ?_, ?_⟩
      · have hmin : min q position.quantity = position.quantity := min_eq_right hcl
        rw [hmin]
        ring
      · intro hlt; exfalso; rw [heq] at hlt; exact lt_irrefl _ hlt
      · intro hlt; exfalso; rw [heq] at hlt; exact lt_irrefl _ hlt
      · intro _; trivial
  · have hlt : q < position.quantity := lt_of_not_ge hcl
    simp only [if_neg hcl]
    refine ⟨?_, ?_, ?_, ?_⟩
    · have hmin : min q position.quantity = q := min_eq_left (le_of_lt hlt)
      rw [hmin]
      ring
    · intro hgt; exact absurd hgt (not_lt.mpr (le_of_lt hlt))
    · intro _; exact ⟨by trivial, by trivial⟩
    · intro heq; exfalso; rw [heq] at hlt; exact lt_irrefl _ hlt

/-- A trade dict as consumed by
`PerformanceAnalyzer._create_trade_pairs` in `src/backtest/performance.py`:
symbol, side (the strings "buy"/"sell"), quantity, price, commission,
timestamp. -/
structure PerfTrade where
  symbol : String
  side : String
  quantity : ℚ
  price : ℚ
  commission : ℚ
  timestamp : ℕ
deriving DecidableEq, Repr

/-- A pair dict produced by `_create_trade_pairs`. -/
structure TradePair where
  symbol : String
  buyPrice : ℚ
  sellPrice : ℚ
  quantity : ℚ
  pnl : ℚ
  durationDays : ℕ
  buyTime : ℕ
  sellTime : ℕ
deriving DecidableEq, Repr

/-- Stable insertion by timestamp (equal keys keep their relative order, as
Python's stable `sorted` does). -/
def insertTrade (t : PerfTrade) : List PerfTrade → List PerfTrade
  | [] => [t]
  | u :: rest => if t.timestamp < u.timestamp then t :: u :: rest else u :: insertTrade t rest

/-- `sorted(trades, key=lambda x: x[timestamp])`. -/
def sortTrades (trades : List PerfTrade) : List PerfTrade :=
  trades.foldl (fun acc t => insertTrade t acc) []

/-- The `positions` dict of `_create_trade_pairs`: per-symbol queues of
still-unmatched buy trades. -/
abbrev BuyQueues := List (String × List PerfTrade)

/-- Dict read with the implicit `positions[symbol] = []` default. -/
def getQueue : BuyQueues → String → List PerfTrade
  | [], _ => []
  | (s, q) :: rest, sym => if s = sym then q else getQueue rest sym

/-- Dict write for a per-symbol buy queue. -/
def setQueue : BuyQueues → String → List PerfTrade → BuyQueues
  | [], sym, l => [(sym, l)]
  | (s, q) :: rest, sym, l => if s = sym then (sym, l) :: rest else (s, q) :: setQueue rest sym l

/-- The loop body of `_create_trade_pairs`: a buy is appended to its symbol's
queue; a sell with a non-empty queue pops the single front buy lot, emits one
pair over `min(sellQty, buyQty)`, and re-queues the front lot reduced when
only part of it was consumed. -/
def tradePairsStep (state : BuyQueues × List TradePair) (trade : PerfTrade) :
    BuyQueues × List TradePair :=
  let queue := getQueue state.1 trade.symbol
  if trade.side = "buy" then
    (setQueue state.1 trade.symbol (queue ++ [trade]), state.2)
  else if trade.side = "sell" ∧ queue ≠ [] then
    match queue with
    | [] => state
    | buyTrade :: rest =>
      let quantity := min trade.quantity buyTrade.quantity
      let buyCost := quantity * buyTrade.price + buyTrade.commission
      let sellProceeds := quantity * trade.price - trade.commission
      let pair : TradePair :=
        { symbol := trade.symbol,
          buyPrice := buyTrade.price,
          sellPrice := trade.price,
          quantity := quantity,
          pnl := sellProceeds - buyCost,
          durationDays := trade.timestamp - buyTrade.timestamp,
          buyTime := buyTrade.timestamp,
          sellTime := trade.timestamp }
      let newQueue :=
        if quantity < buyTrade.quantity then
          { buyTrade with quantity := buyTrade.quantity - quantity } :: rest
        else rest
      (setQueue state.1 trade.symbol newQueue, state.2 ++ [pair])
  else state

/-- `PerformanceAnalyzer._create_trade_pairs` from
`src/backtest/performance.py`. -/
def createTradePairs (trades : List PerfTrade) : List TradePair :=
  ((sortTrades trades).foldl tradePairsStep ([], [])).2

/-- The claim's own FIFO example: buy 1 @ 100, buy 1 @ 120, sell 2 @ 130,
all with zero commission. -/
def c2Trades : List PerfTrade :=
  [ { symbol := "BTC", side := "buy", quantity := 1, price := 100, commission := 0, timestamp := 0 },
    { symbol := "BTC", side := "buy", quantity := 1, price := 120, commission := 0, timestamp := 1 },
    { symbol := "BTC", side := "sell", quantity := 2, price := 130, commission := 0, timestamp := 2 } ]

/-- C2, counterexample: on buy 1 @ 100, buy 1 @ 120, sell 2 @ 130 with zero
commission, `_create_trade_pairs` yields exactly one pair with PnL +30, not
the claimed two pairs with PnL +30 and +10 — each sell pops only the single
oldest buy lot and the unmatched sell remainder is discarded. -/
theorem c2_counterexample :
    (createTradePairs c2Trades).map TradePair.pnl = [30] ∧
      (createTradePairs c2Trades).length ≠ 2 := by
  constructor
  · norm_num +decide [createTradePairs, sortTrades, insertTrade, tradePairsStep, getQueue,
      setQueue, c2Trades]
  · norm_num +decide [createTradePairs, sortTrades, insertTrade, tradePairsStep, getQueue,
      setQueue, c2Trades]

/-- C2, amended: trade pairing matches each sell against only the oldest
unmatched buy lot of its symbol: processing a sell whose symbol queue has
front lot `buyTrade` emits exactly one pair over quantity
`min(sellQty, buyQty)` with PnL = (qty × sellPrice − sellCommission) −
(qty × buyPrice + buyCommission), re-queues the front lot (reduced) at the
front when it was only partially consumed and pops it otherwise; any excess
sell quantity is dropped rather than matched against further lots. -/
theorem c2_fifo_single_lot (positions : BuyQueues) (pairs : List TradePair)
    (t buyTrade : PerfTrade) (rest : List PerfTrade)
    (hside : t.side = "sell") (hqueue : getQueue positions t.symbol = buyTrade :: rest) :
    tradePairsStep (positions, pairs) t =
      (setQueue positions t.symbol
        (if min t.quantity buyTrade.quantity < buyTrade.quantity then
          { buyTrade with quantity := buyTrade.quantity - min t.quantity buyTrade.quantity } :: rest
         else rest),
       pairs ++
         [{ symbol := t.symbol,
            buyPrice := buyTrade.price,
            sellPrice := t.price,
            quantity := min t.quantity buyTrade.quantity,
            pnl := (min t.quantity buyTrade.quantity * t.price - t.commission) -
              (min t.quantity buyTrade.quantity * buyTrade.price + buyTrade.commission),
            durationDays := t.timestamp - buyTrade.timestamp,
            buyTime := buyTrade.timestamp,
            sellTime := t.timestamp }]) := by
  simp only [tradePairsStep, hqueue, hside]
  simp

/-- C2, witness: the amended single-lot matching applied to a sell of 2
against a queued buy lot of 1 @ 100 — one pair, PnL +30, lot popped. -/
theorem c2_fifo_single_lot_witness :
    tradePairsStep ([("BTC", [{ symbol := "BTC", side := "buy", quantity := 1, price := 100, commission := 0, timestamp := 0 }])], [])
        { symbol := "BTC", side := "sell", quantity := 2, price := 130, commission := 0, timestamp := 2 } =
      ([("BTC", [])],
       [{ symbol := "BTC", buyPrice := 100, sellPrice := 130, quantity := 1, pnl := 30,
          durationDays := 2, buyTime := 0, sellTime := 2 }]) := by
  have h := c2_fifo_single_lot
    [("BTC", [{ symbol := "BTC", side := "buy", quantity := 1, price := 100, commission := 0, timestamp := 0 }])]
    []
    { symbol := "BTC", side := "sell", quantity := 2, price := 130, commission := 0, timestamp := 2 }
    { symbol := "BTC", side := "buy", quantity := 1, price := 100, commission := 0, timestamp := 0 }
    [] rfl (by norm_num [getQueue])
  rw [h]
  norm_num [setQueue]

/-- `StrategyParameters` from `src/core/parameters.py` with its field
defaults (`parameter_refresh_minutes` omitted: persistence cache detail). -/
structure StrategyParameters where
  shortEmaPeriod : ℕ := 20
  longEmaPeriod : ℕ := 60
  rsiPeriod : ℕ := 14
  rsiBuyMin : ℚ := 50
  rsiBuyMax : ℚ := 70
  rsiSellThreshold : ℚ := 45
  rsiOverbought : ℚ := 70
  rsiOversold : ℚ := 30
  atrPeriod : ℕ := 14
  atrMultiplier : ℚ := 2
  trailingAtrMultiplier : ℚ := 2
  stopLossPct : ℚ := 3/100
  targetProfitPct : ℚ := 2/100
  partialTakeProfitPct : ℚ := 1/100
  volumeMaPeriod : ℕ := 10
  volumeRatioThreshold : ℚ := 8/10
  maxConcurrentPositions : ℕ := 5
  maxRiskPerTrade : ℚ := 3/100
  capitalAllocationPerPosition : ℚ := 4/100
  kellyWinRate : ℚ := 55/100
  kellyRewardRisk : ℚ := 18/10
  correlationThreshold : ℚ := 8/10
deriving DecidableEq, Repr

/-- `RiskManager.calculate_position_size` from `src/core/risk.py`: Kelly
fraction clamped at zero, allocation as the code's
`min(capital_cap, risk_cap, kelly_amount if kelly_amount > 0 else capital_cap)`,
unit risk as the larger of price×stopLossPct and ATR×atrMultiplier. -/
def calculatePositionSize (params : StrategyParameters) (equity price : ℚ)
    (atr : Option ℚ) : ℚ :=
  let winRate := params.kellyWinRate
  let rewardRisk := params.kellyRewardRisk
  let kellyFraction := max (winRate - (1 - winRate) / rewardRisk) 0
  let kellyAmount := equity * kellyFraction
  let riskCap := equity * params.maxRiskPerTrade
  let capitalCap := equity * params.capitalAllocationPerPosition
  let allocation := min capitalCap (min riskCap (if 0 < kellyAmount then kellyAmount else capitalCap))
  if allocation ≤ 0 then 0
  else
    let atrComponent := (atr.getD 0) * params.atrMultiplier
    let stopLossValue := price * params.stopLossPct
    let unitRisk := max stopLossValue atrComponent
    if unitRisk = 0 then 0 else allocation / unitRisk

/-- The position size exactly as the claim words it: allocation is
`min(equity × capitalAllocation, equity × maxRisk, kellyAmount)` with the
Kelly amount participating unconditionally, divided by the unit risk, with 0
whenever the allocation or the divisor is not positive. -/
def specPositionSize (params : StrategyParameters) (equity price : ℚ)
    (atr : Option ℚ) : ℚ :=
  let kellyAmount := equity * max (params.kellyWinRate - (1 - params.kellyWinRate) / params.kellyRewardRisk) 0
  let allocation := min (equity * params.capitalAllocationPerPosition)
    (min (equity * params.maxRiskPerTrade) kellyAmount)
  let unitRisk := max (price * params.stopLossPct) ((atr.getD 0) * params.atrMultiplier)
  if allocation ≤ 0 ∨ unitRisk ≤ 0 then 0 else allocation / unitRisk

/-- Valid parameters whose Kelly fraction is exactly zero
(win rate 50%, reward/risk 1). -/
def c3Params : StrategyParameters :=
  { kellyWinRate := 1/2, kellyRewardRisk := 1, maxRiskPerTrade := 1/50,
    capitalAllocationPerPosition := 1/10, stopLossPct := 1/20, atrMultiplier := 2 }

/-- C3, counterexample: with a zero Kelly amount (win rate 1/2, reward/risk 1),
equity 1000, price 100 and no ATR, the code returns
min(100, 20, capital cap fallback)/5 = 4, while the claimed formula
min(100, 20, 0)/5 gives 0 — `calculate_position_size` substitutes the capital
cap for a non-positive Kelly amount instead of letting it zero the size. -/
theorem c3_counterexample :
    calculatePositionSize c3Params 1000 100 none = 4 ∧
      specPositionSize c3Params 1000 100 none = 0 ∧ (4 : ℚ) ≠ 0 := by
  refine ⟨?_, ?_, by norm_num⟩
  · norm_num [calculatePositionSize, c3Params]
  · norm_num [specPositionSize, c3Params]

/-- C3, amended: for every equity, price, optional ATR and parameter set with
positive Kelly reward/risk (the code divides by it), the returned size is
allocation / max(price × stopLossPct, ATR × atrMultiplier) where the
allocation is min(capital cap, risk cap, Kelly amount) when the Kelly amount
is positive and min(capital cap, risk cap) otherwise — and 0 exactly when
that allocation is not positive or the unit-risk divisor is zero. -/
theorem c3_position_size (params : StrategyParameters) (equity price : ℚ) (atr : Option ℚ)
    (hrr : 0 < params.kellyRewardRisk) :
    calculatePositionSize params equity price atr =
      (let kellyAmount :=
        equity * max (params.kellyWinRate - (1 - params.kellyWinRate) / params.kellyRewardRisk) 0
       let capitalCap := equity * params.capitalAllocationPerPosition
       let riskCap := equity * params.maxRiskPerTrade
       let allocation :=
         if 0 < kellyAmount then min capitalCap (min riskCap kellyAmount)
         else min capitalCap riskCap
       let unitRisk := max (price * params.stopLossPct) ((atr.getD 0) * params.atrMultiplier)
       if 0 < allocation ∧ unitRisk ≠ 0 then allocation / unitRisk else 0) := by
  simp only [calculatePositionSize]
  by_cases hk : 0 < equity * max (params.kellyWinRate - (1 - params.kellyWinRate) / params.kellyRewardRisk) 0
  · simp only [if_pos hk]
    by_cases ha : min (equity * params.capitalAllocationPerPosition)
        (min (equity * params.maxRiskPerTrade)
          (equity * max (params.kellyWinRate - (1 - params.kellyWinRate) / params.kellyRewardRisk) 0)) ≤ 0
    · rw [if_pos ha, if_neg]
      simp only [not_and, not_not]
      intro h0
      linarith
    · rw [if_neg ha]
      have h0 : 0 < min (equity * params.capitalAllocationPerPosition)
          (min (equity * params.maxRiskPerTrade)
            (equity * max (params.kellyWinRate - (1 - params.kellyWinRate) / params.kellyRewardRisk) 0)) :=
        lt_of_not_ge ha
      by_cases hu : max (price * params.stopLossPct) ((atr.getD 0) * params.atrMultiplier) = 0
      · rw [if_pos hu, if_neg]
        simp [hu]
      · rw [if_neg hu, if_pos ⟨h0, hu⟩]
  · simp only [if_neg hk]
    have hmin : min (equity * params.capitalAllocationPerPosition)
        (min (equity * params.maxRiskPerTrade) (equity * params.capitalAllocationPerPosition)) =
      min (equity * params.capitalAllocationPerPosition) (equity * params.maxRiskPerTrade) := by
      rw [min_comm (equity * params.maxRiskPerTrade) (equity * params.capitalAllocationPerPosition),
        ← min_assoc, min_self]
    rw [hmin]
    by_cases ha : min (equity * params.capitalAllocationPerPosition) (equity * params.maxRiskPerTrade) ≤ 0
    · rw [if_pos ha, if_neg]
      simp only [not_and, not_not]
      intro h0
      linarith
    · rw [if_neg ha]
      have h0 : 0 < min (equity * params.capitalAllocationPerPosition) (equity * params.maxRiskPerTrade) :=
        lt_of_not_ge ha
      by_cases hu : max (price * params.stopLossPct) ((atr.getD 0) * params.atrMultiplier) = 0
      · rw [if_pos hu, if_neg]
        simp [hu]
      · rw [if_neg hu, if_pos ⟨h0, hu⟩]

/-- C3, witness: the amended formula instantiated on the default parameters
(Kelly reward/risk 1.8 > 0) at equity 1000, price 100, no ATR. -/
theorem c3_position_size_witness :
    (0 : ℚ) < ({} : StrategyParameters).kellyRewardRisk ∧
      calculatePositionSize {} 1000 100 none =
        (let kellyAmount := (1000 : ℚ) *
          max (({} : StrategyParameters).kellyWinRate -
            (1 - ({} : StrategyParameters).kellyWinRate) / ({} : StrategyParameters).kellyRewardRisk) 0
         let capitalCap := (1000 : ℚ) * ({} : StrategyParameters).capitalAllocationPerPosition
         let riskCap := (1000 : ℚ) * ({} : StrategyParameters).maxRiskPerTrade
         let allocation :=
           if 0 < kellyAmount then min capitalCap (min riskCap kellyAmount)
           else min capitalCap riskCap
         let unitRisk := max ((100 : ℚ) * ({} : StrategyParameters).stopLossPct)
           (((none : Option ℚ).getD 0) * ({} : StrategyParameters).atrMultiplier)
         if 0 < allocation ∧ unitRisk ≠ 0 then allocation / unitRisk else 0) :=
  ⟨by norm_num, c3_position_size {} 1000 100 none (by norm_num)⟩

/-- `OrderType` from `src/core/order_types.py`. -/
inductive OrderType where
  | market
  | limit
  | stop
  | stopLimit
  | trailingStop
deriving DecidableEq, Repr

/-- `OrderRequest` from `src/core/order_types.py` (metadata fields
`time_in_force`, `client_order_id`, `strategy_id`, `signal_id`, `reason`
dropped: `__post_init__` never reads them). -/
structure OrderRequest where
  symbol : String
  side : OrderSide
  orderType : OrderType
  quantity : ℚ
  price : Option ℚ := none
  stopPrice : Option ℚ := none
deriving DecidableEq, Repr

/-- `OrderRequest` construction including `__post_init__` validation: limit
and stop-limit orders need a price, stop/stop-limit/trailing-stop orders need
a stop price; a raised `ValueError` is the `.error` branch. -/
def mkOrderRequest (symbol : String) (side : OrderSide) (orderType : OrderType)
    (quantity : ℚ) (price stopPrice : Option ℚ) : Except String OrderRequest :=
  if (orderType = .limit ∨ orderType = .stopLimit) ∧ price = none then
    .error "주문은 가격이 필요합니다."
  else if (orderType = .stop ∨ orderType = .stopLimit ∨ orderType = .trailingStop) ∧ stopPrice = none then
    .error "주문은 스탑 가격이 필요합니다."
  else
    .ok { symbol := symbol, side := side, orderType := orderType,
          quantity := quantity, price := price, stopPrice := stopPrice }

/-- C8, counterexample: constructing a market `OrderRequest` with quantity 0
succeeds — `__post_init__` never validates the quantity, refuting
"construction fails whenever quantity ≤ 0". -/
theorem c8_counterexample :
    (mkOrderRequest "BTC_KRW" .buy .market 0 none none).isOk = true ∧ (0 : ℚ) ≤ 0 := by
  constructor
  · rfl
  · norm_num

/-- C8, amended: `OrderRequest` construction succeeds if and only if a price
is present for limit/stop-limit orders and a stop price is present for
stop/stop-limit/trailing-stop orders; the quantity is not validated at
construction (quantity ≤ 0 constructs fine — the non-zero-quantity check
lives in the scheduler's pre-trade validation, not here). -/
theorem c8_validation (symbol : String) (side : OrderSide) (orderType : OrderType)
    (quantity : ℚ) (price stopPrice : Option ℚ) :
    (mkOrderRequest symbol side orderType quantity price stopPrice).isOk = true ↔
      (((orderType = .limit ∨ orderType = .stopLimit) → price ≠ none) ∧
        ((orderType = .stop ∨ orderType = .stopLimit ∨ orderType = .trailingStop) → stopPrice ≠ none)) := by
  rw [mkOrderRequest]
  split
  · next h =>
    simp only [Except.isOk, Except.toBool]
    constructor
    · intro hfalse
      cases hfalse
    · intro ⟨h1, _⟩
      exact absurd h.2 (h1 h.1)
  · next h1 =>
    split
    · next h2 =>
      simp only [Except.isOk, Except.toBool]
      constructor
      · intro hfalse
        cases hfalse
      · intro ⟨_, hsp⟩
        exact absurd h2.2 (hsp h2.1)
    · next h2 =>
      simp only [Except.isOk, Except.toBool]
      constructor
      · intro _
        constructor
        · intro ht hp
          exact h1 ⟨ht, hp⟩
        · intro ht hp
          exact h2 ⟨ht, hp⟩
      · intro _
        trivial

/-- `OrderPriority` from `src/core/order_types.py` with its enum values. -/
inductive OrderPriority where
  | low
  | normal
  | high
  | urgent
deriving DecidableEq, Repr

/-- The numeric `value` of each `OrderPriority` member. -/
def OrderPriority.value : OrderPriority → ℕ
  | .low => 1
  | .normal => 2
  | .high => 3
  | .urgent => 4

/-- `QueuedOrder` from `src/core/order_types.py`. -/
structure QueuedOrder where
  request : OrderRequest
  priority : OrderPriority
  createdAt : ℕ
  retryCount : ℕ := 0
  maxRetries : ℕ := 3
deriving DecidableEq, Repr

/-- `QueuedOrder.__lt__`: the comparison used by the scheduler's
`PriorityQueue`, which always dequeues the `__lt__`-least entry first. -/
def queuedOrderLt (a b : QueuedOrder) : Bool :=
  if a.priority.value ≠ b.priority.value then
    a.priority.value > b.priority.value
  else
    a.createdAt < b.createdAt

/-- C9: `a` sorts (hence dequeues) before `b` exactly when `a`'s priority
value is strictly greater, or the priorities are equal and `a` was created
strictly earlier — higher priority first, FIFO inside one priority tier. -/
theorem c9_priority_order (a b : QueuedOrder) :
    queuedOrderLt a b = true ↔
      (b.priority.value < a.priority.value ∨
        (a.priority.value = b.priority.value ∧ a.createdAt < b.createdAt)) := by
  rw [queuedOrderLt]
  split
  · next h =>
    simp only [decide_eq_true_eq]
    constructor
    · intro hgt
      exact Or.inl hgt
    · intro hor
      rcases hor with hgt | ⟨heq, _⟩
      · exact hgt
      · exact absurd heq h
  · next h =>
    have heq : a.priority.value = b.priority.value := not_ne_iff.mp h
    simp only [decide_eq_true_eq]
    constructor
    · intro hlt
      exact Or.inr ⟨heq, hlt⟩
    · intro hor
      rcases hor with hgt | ⟨_, hlt⟩
      · rw [heq] at hgt
        exact absurd hgt (lt_irrefl _)
      · exact hlt

/-- C4, witness: the claim's flip scenario — starting flat, buy 1 @ 100 then
sell 2 @ 110 with commission 0 leaves the position short 1 at average price
110 with realized PnL +10. -/
theorem c4_sell_while_long_witness :
    (0 : ℚ) < (updatePosition { symbol := "BTC" } .buy 1 100 0).quantity ∧
      (updatePosition (updatePosition { symbol := "BTC" } .buy 1 100 0) .sell 2 110 0).quantity = -1 ∧
      (updatePosition (updatePosition { symbol := "BTC" } .buy 1 100 0) .sell 2 110 0).averagePrice = 110 ∧
      (updatePosition (updatePosition { symbol := "BTC" } .buy 1 100 0) .sell 2 110 0).realizedPnl = 10 := by
  have hlong : (0 : ℚ) < (updatePosition { symbol := "BTC" } .buy 1 100 0).quantity := by
    norm_num [updatePosition]
  have h := c4_sell_while_long (updatePosition { symbol := "BTC" } .buy 1 100 0) 2 110 0 hlong
  have hq : (updatePosition { symbol := "BTC" } .buy 1 100 0).quantity = 1 := by
    norm_num [updatePosition]
  have havg : (updatePosition { symbol := "BTC" } .buy 1 100 0).averagePrice = 100 := by
    norm_num [updatePosition]
  have hrpl : (updatePosition { symbol := "BTC" } .buy 1 100 0).realizedPnl = 0 := by
    norm_num [updatePosition]
  obtain ⟨hr, hflip, -, -⟩ := h
  have hflip2 := hflip (by rw [hq]; norm_num)
  refine ⟨hlong, ?_, ?_, ?_⟩
  · rw [hflip2.1, hq]; norm_num
  · exact hflip2.2
  · rw [hr, hq, havg, hrpl]; norm_num


/-- `Candle` from `src/core/indicators.py` (`open` renamed `openP`: Lean
keyword). -/
structure Candle where
  symbol : String
  timestamp : ℕ
  openP : ℚ
  high : ℚ
  low : ℚ
  close : ℚ
  volume : ℚ
deriving DecidableEq, Repr

/-- `CandleSeries` from `src/core/indicators.py`: a symbol plus its stored
candle list. -/
structure CandleSeries where
  symbol : String
  candles : List Candle
deriving DecidableEq, Repr

/-- Stable insertion by timestamp: a new element goes after all existing
elements with the same timestamp, exactly where Python's stable `list.sort`
keeps an element appended at the end. -/
def insertByTimestamp (c : Candle) : List Candle → List Candle
  | [] => [c]
  | d :: rest => if c.timestamp < d.timestamp then c :: d :: rest else d :: insertByTimestamp c rest

/-- `self._candles.sort(key=lambda item: item.timestamp)` as a stable
insertion sort. -/
def sortByTimestamp (candles : List Candle) : List Candle :=
  candles.foldl (fun acc c => insertByTimestamp c acc) []

/-- `CandleSeries.append`: reject foreign symbols, then append and re-sort by
timestamp; no deduplication is performed. -/
def CandleSeries.append (series : CandleSeries) (candle : Candle) : Except String CandleSeries :=
  if candle.symbol ≠ series.symbol then .error "서로 다른 심볼의 캔들"
  else .ok { series with candles := sortByTimestamp (series.candles ++ [candle]) }

/-- `CandleSeries.extend`: append each candle in turn. -/
def CandleSeries.extend (series : CandleSeries) : List Candle → Except String CandleSeries
  | [] => .ok series
  | c :: rest =>
    match series.append c with
    | .error e => .error e
    | .ok s => s.extend rest

/-- Non-decreasing timestamp order on candles. -/
def tsLe (a b : Candle) : Prop := a.timestamp ≤ b.timestamp

lemma mem_insertByTimestamp {b c : Candle} {l : List Candle}
    (h : b ∈ insertByTimestamp c l) : b = c ∨ b ∈ l := by
  induction l with
  | nil =>
    rw [insertByTimestamp, List.mem_singleton] at h
    exact Or.inl h
  | cons d rest ih =>
    rw [insertByTimestamp] at h
    split at h
    · rw [List.mem_cons] at h
      rcases h with h | h
      · exact Or.inl h
      · exact Or.inr h
    · rw [List.mem_cons] at h
      rcases h with h | h
      · exact Or.inr (by rw [h]; exact List.mem_cons_self d rest)
      · rcases ih h with h1 | h1
        · exact Or.inl h1
        · exact Or.inr (List.mem_cons_of_mem _ h1)

lemma sorted_insertByTimestamp (c : Candle) (l : List Candle)
    (h : List.Sorted tsLe l) : List.Sorted tsLe (insertByTimestamp c l) := by
  induction l with
  | nil =>
    rw [insertByTimestamp]
    simp
  | cons d rest ih =>
    rw [List.sorted_cons] at h
    rw [insertByTimestamp]
    split
    · next hlt =>
      rw [List.sorted_cons]
      constructor
      · intro b hb
        rw [List.mem_cons] at hb
        rcases hb with hb | hb
        · rw [hb]
          exact le_of_lt hlt
        · exact le_trans (le_of_lt hlt) (h.1 b hb)
      · rw [List.sorted_cons]
        exact h
    · next hge =>
      have hle : d.timestamp ≤ c.timestamp := le_of_not_lt hge
      rw [List.sorted_cons]
      constructor
      · intro b hb
        rcases mem_insertByTimestamp hb with hb | hb
        · rw [hb]
          exact hle
        · exact h.1 b hb
      · exact ih h.2
  
lemma sorted_foldl_insert (l acc : List Candle) (h : List.Sorted tsLe acc) :
    List.Sorted tsLe (l.foldl (fun a c => insertByTimestamp c a) acc) := by
  induction l generalizing acc with
  | nil => exact h
  | cons c rest ih =>
    exact ih _ (sorted_insertByTimestamp c acc h)

lemma sorted_sortByTimestamp (l : List Candle) : List.Sorted tsLe (sortByTimestamp l) :=
  sorted_foldl_insert l [] (by simp)

/-- A fixed candle appended twice in the duplicate-timestamp
counterexample. -/
def c7Candle : Candle :=
  { symbol := "BTC", timestamp := 1, openP := 1, high := 1, low := 1, close := 1, volume := 1 }

/-- C7, counterexample: appending the same candle twice to an empty series of
its own symbol succeeds and stores both copies — two entries with equal
timestamp 1, so the stored candles are neither strictly increasing in
timestamp nor deduplicated. -/
theorem c7_counterexample :
    (({ symbol := "BTC", candles := [] } : CandleSeries).append c7Candle).bind
        (fun s1 => s1.append c7Candle) =
      Except.ok ({ symbol := "BTC", candles := [c7Candle, c7Candle] } : CandleSeries) ∧
      ¬ List.Pairwise (fun a b : ℕ => a < b) ([c7Candle, c7Candle].map Candle.timestamp) ∧
      c7Candle.timestamp = c7Candle.timestamp := by
  refine ⟨?_, by decide, rfl⟩
  rfl

/-- C7, amended: after every `append` of a candle of the series' own symbol
the stored candles are sorted in non-decreasing timestamp order (duplicate
timestamps are retained, not deduplicated), and `extend` with own-symbol
candles preserves that sorted order. -/
theorem c7_sorted :
    (∀ (series : CandleSeries) (candle : Candle), candle.symbol = series.symbol →
      ∃ s, series.append candle = Except.ok s ∧ List.Sorted tsLe s.candles) ∧
    (∀ (series : CandleSeries) (batch : List Candle),
      (∀ c ∈ batch, c.symbol = series.symbol) →
      ∃ s, series.extend batch = Except.ok s ∧
        (List.Sorted tsLe series.candles → List.Sorted tsLe s.candles)) := by
  have happ : ∀ (series : CandleSeries) (candle : Candle), candle.symbol = series.symbol →
      series.append candle =
        Except.ok { series with candles := sortByTimestamp (series.candles ++ [candle]) } := by
    intro series candle hsym
    rw [CandleSeries.append, if_neg (by simp [hsym])]
  constructor
  · intro series candle hsym
    exact ⟨_, happ series candle hsym, sorted_sortByTimestamp _⟩
  · intro series batch
    induction batch generalizing series with
    | nil =>
      intro _
      exact ⟨series, rfl, fun h => h⟩
    | cons c rest ih =>
      intro hsyms
      have hsym : c.symbol = series.symbol := hsyms c (List.mem_cons_self _ _)
      have h1 := happ series c hsym
      have hrest : ∀ d ∈ rest,
          d.symbol = ({ series with candles := sortByTimestamp (series.candles ++ [c]) } : CandleSeries).symbol := by
        intro d hd
        exact hsyms d (List.mem_cons_of_mem _ hd)
      obtain ⟨s, hs, hsorted⟩ := ih _ hrest
      refine ⟨s, ?_, fun _ => hsorted (sorted_sortByTimestamp _)⟩
      rw [CandleSeries.extend, h1]
      exact hs

/-- C7, witness: the amended append statement applied to a one-candle append
on an empty series. -/
theorem c7_sorted_witness :
    ∃ s, (({ symbol := "BTC", candles := [] } : CandleSeries).append c7Candle) = Except.ok s ∧
      List.Sorted tsLe s.candles :=
  c7_sorted.1 { symbol := "BTC", candles := [] } c7Candle rfl


/-- One step of Wilder's smoothing, `avg = (avg*(period-1) + new)/period`,
shared by RSI and ATR in `src/core/indicators.py`. -/
def wilderStep (period : ℕ) (avg v : ℚ) : ℚ :=
  (avg * ((period : ℚ) - 1) + v) / (period : ℚ)

/-- `_ema` from `src/core/indicators.py`: simple-average seed over the first
`period` values, then the incremental EMA recurrence with multiplier
`2/(period+1)`. -/
def emaOf (values : List ℚ) (period : ℕ) : ℚ :=
  let seed := (values.take period).sum / (period : ℚ)
  let multiplier := 2 / ((period : ℚ) + 1)
  (values.drop period).foldl (fun ema price => (price - ema) * multiplier + ema) seed

/-- `calculate_ema` with its `_ensure_length` guard. -/
def calculateEma (candles : List Candle) (period : ℕ) : Except String ℚ :=
  if candles.length < period then .error "EMA 계산을 위한 캔들 부족"
  else .ok (emaOf (candles.map Candle.close) period)

/-- The close-to-close changes consumed by `calculate_rsi`
(`closes[i] - closes[i-1]`). -/
def rsiChanges (closes : List ℚ) : List ℚ :=
  List.zipWith (fun a b => a - b) (closes.drop 1) closes

/-- The arithmetic core of `calculate_rsi`: gains/losses seeded over the
first `period` deltas, Wilder recurrence over the rest, RSI = 100 when the
smoothed loss is zero, else `100 - 100/(1 + avg_gain/avg_loss)`. -/
def rsiOf (closes : List ℚ) (period : ℕ) : ℚ :=
  let changes := rsiChanges closes
  let gains := changes.map (fun c => max c 0)
  let losses := changes.map (fun c => max (-c) 0)
  let avgGain := (gains.take period).sum / (period : ℚ)
  let avgLoss := (losses.take period).sum / (period : ℚ)
  let finalGain := (gains.drop period).foldl (wilderStep period) avgGain
  let finalLoss := (losses.drop period).foldl (wilderStep period) avgLoss
  if finalLoss = 0 then 100
  else 100 - 100 / (1 + finalGain / finalLoss)

/-- `calculate_rsi` from `src/core/indicators.py` with its
`_ensure_length(period+1)` guard. -/
def calculateRsi (candles : List Candle) (period : ℕ) : Except String ℚ :=
  if candles.length < period + 1 then .error "RSI 계산을 위한 캔들 부족"
  else .ok (rsiOf (candles.map Candle.close) period)

/-- Wilder smoothing keeps non-negative averages non-negative. -/
lemma wilderStep_nonneg (p : ℕ) (hp : 1 ≤ p) (a v : ℚ) (ha : 0 ≤ a) (hv : 0 ≤ v) :
    0 ≤ wilderStep p a v := by
  have hpq : (1 : ℚ) ≤ (p : ℚ) := by exact_mod_cast hp
  apply div_nonneg
  · nlinarith
  · linarith

/-- Wilder smoothing with period ≥ 2 keeps positive averages positive. -/
lemma wilderStep_pos (p : ℕ) (hp : 2 ≤ p) (a v : ℚ) (ha : 0 < a) (hv : 0 ≤ v) :
    0 < wilderStep p a v := by
  have hpq : (2 : ℚ) ≤ (p : ℚ) := by exact_mod_cast hp
  apply div_pos
  · nlinarith
  · linarith

lemma wilder_foldl_nonneg (p : ℕ) (hp : 1 ≤ p) (xs : List ℚ) (a : ℚ) (ha : 0 ≤ a)
    (hxs : ∀ x ∈ xs, 0 ≤ x) : 0 ≤ xs.foldl (wilderStep p) a := by
  induction xs generalizing a with
  | nil => exact ha
  | cons x rest ih =>
    exact ih _ (wilderStep_nonneg p hp a x ha (hxs x (List.mem_cons_self _ _)))
      (fun y hy => hxs y (List.mem_cons_of_mem _ hy))

lemma wilder_foldl_pos (p : ℕ) (hp : 2 ≤ p) (xs : List ℚ) (a : ℚ) (ha : 0 < a)
    (hxs : ∀ x ∈ xs, 0 ≤ x) : 0 < xs.foldl (wilderStep p) a := by
  induction xs generalizing a with
  | nil => exact ha
  | cons x rest ih =>
    exact ih _ (wilderStep_pos p hp a x ha (hxs x (List.mem_cons_self _ _)))
      (fun y hy => hxs y (List.mem_cons_of_mem _ hy))

lemma wilder_foldl_zero (p : ℕ) (xs : List ℚ) (hxs : ∀ x ∈ xs, x = 0) :
    xs.foldl (wilderStep p) 0 = 0 := by
  induction xs with
  | nil => rfl
  | cons x rest ih =>
    have hx : x = 0 := hxs x (List.mem_cons_self _ _)
    have hstep : wilderStep p 0 x = 0 := by
      rw [hx, wilderStep]
      simp
    rw [List.foldl_cons, hstep]
    exact ih (fun y hy => hxs y (List.mem_cons_of_mem _ hy))

lemma wilder_foldl_pos_of_mem (p : ℕ) (hp : 2 ≤ p) (xs : List ℚ) (a : ℚ) (ha : 0 ≤ a)
    (hxs : ∀ x ∈ xs, 0 ≤ x) (x₀ : ℚ) (hmem : x₀ ∈ xs) (hpos : 0 < x₀) :
    0 < xs.foldl (wilderStep p) a := by
  induction xs generalizing a with
  | nil => cases hmem
  | cons y rest ih =>
    rw [List.mem_cons] at hmem
    rw [List.foldl_cons]
    rcases hmem with hx | hx
    · apply wilder_foldl_pos p hp rest _ _ (fun z hz => hxs z (List.mem_cons_of_mem _ hz))
      have hy : 0 < y := hx ▸ hpos
      have hpq : (2 : ℚ) ≤ (p : ℚ) := by exact_mod_cast hp
      rw [wilderStep]
      apply div_pos
      · nlinarith
      · linarith
    · apply ih _ (wilderStep_nonneg p (by omega) a y ha (hxs y (List.mem_cons_self _ _)))
        (fun z hz => hxs z (List.mem_cons_of_mem _ hz)) hx

lemma sum_pos_of_mem (xs : List ℚ) (hxs : ∀ x ∈ xs, 0 ≤ x) (x₀ : ℚ)
    (hmem : x₀ ∈ xs) (hpos : 0 < x₀) : 0 < xs.sum := by
  induction xs with
  | nil => cases hmem
  | cons y rest ih =>
    rw [List.mem_cons] at hmem
    rw [List.sum_cons]
    have hrest : 0 ≤ rest.sum :=
      List.sum_nonneg (fun z hz => hxs z (List.mem_cons_of_mem _ hz))
    rcases hmem with hx | hx
    · have hy : 0 < y := hx ▸ hpos
      linarith
    · have hy : 0 ≤ y := hxs y (List.mem_cons_self _ _)
      have := ih (fun z hz => hxs z (List.mem_cons_of_mem _ hz)) hx
      linarith

/-- The Wilder-smoothed average of a non-negative series is zero exactly when
every consumed value is zero (period ≥ 2, so no past value is ever fully
forgotten). -/
lemma wilder_avg_eq_zero_iff (p : ℕ) (hp : 2 ≤ p) (xs : List ℚ)
    (hxs : ∀ x ∈ xs, 0 ≤ x) :
    (xs.drop p).foldl (wilderStep p) ((xs.take p).sum / (p : ℚ)) = 0 ↔ ∀ x ∈ xs, x = 0 := by
  have hpq : (0 : ℚ) < (p : ℚ) := by positivity
  constructor
  · intro hzero
    by_contra hne
    push_neg at hne
    obtain ⟨x₀, hmem, hx₀⟩ := hne
    have hx₀pos : 0 < x₀ := lt_of_le_of_ne (hxs x₀ hmem) (Ne.symm hx₀)
    have hsplit : x₀ ∈ xs.take p ∨ x₀ ∈ xs.drop p := by
      rw [← List.mem_append, List.take_append_drop]
      exact hmem
    have habs : 0 < (xs.drop p).foldl (wilderStep p) ((xs.take p).sum / (p : ℚ)) := by
      rcases hsplit with hx | hx
      · apply wilder_foldl_pos p hp _ _ _
          (fun z hz => hxs z (List.mem_of_mem_drop hz))
        apply div_pos _ hpq
        exact sum_pos_of_mem _ (fun z hz => hxs z (List.mem_of_mem_take hz)) x₀ hx hx₀pos
      · apply wilder_foldl_pos_of_mem p hp _ _ _
          (fun z hz => hxs z (List.mem_of_mem_drop hz)) x₀ hx hx₀pos
        apply div_nonneg _ (le_of_lt hpq)
        exact List.sum_nonneg (fun z hz => hxs z (List.mem_of_mem_take hz))
    rw [hzero] at habs
    exact lt_irrefl _ habs
  · intro hall
    have hseed : (xs.take p).sum = 0 := by
      apply List.sum_eq_zero
      intro z hz
      exact hall z (List.mem_of_mem_take hz)
    rw [hseed, zero_div]
    exact wilder_foldl_zero p _ (fun z hz => hall z (List.mem_of_mem_drop hz))

/-- C6: for every candle sequence of length at least period+1 (period ≥ 2, as
`StrategyParameters.validate` requires of every RSI period), `calculate_rsi`
returns a value in [0, 100], and it returns exactly 100 if and only if no
close-to-close loss occurs anywhere in the smoothing window. -/
theorem c6_rsi_range_and_hundred (candles : List Candle) (period : ℕ)
    (hp : 2 ≤ period) (hlen : period + 1 ≤ candles.length) :
    ∃ r, calculateRsi candles period = Except.ok r ∧ 0 ≤ r ∧ r ≤ 100 ∧
      (r = 100 ↔ ∀ c ∈ rsiChanges (candles.map Candle.close), 0 ≤ c) := by
  rw [calculateRsi, if_neg (by omega)]
  refine ⟨rsiOf (candles.map Candle.close) period, rfl, ?_⟩
  rw [rsiOf]
  set changes := rsiChanges (candles.map Candle.close) with hchanges
  set losses := changes.map (fun c => max (-c) 0) with hlosses
  set gains := changes.map (fun c => max c 0) with hgains
  have hlossnn : ∀ x ∈ losses, 0 ≤ x := by
    intro x hx
    rw [hlosses, List.mem_map] at hx
    obtain ⟨c, _, hc⟩ := hx
    rw [← hc]
    exact le_max_right _ _
  have hgainnn : ∀ x ∈ gains, 0 ≤ x := by
    intro x hx
    rw [hgains, List.mem_map] at hx
    obtain ⟨c, _, hc⟩ := hx
    rw [← hc]
    exact le_max_right _ _
  have hlosszero : (∀ x ∈ losses, x = 0) ↔ ∀ c ∈ changes, 0 ≤ c := by
    rw [hlosses]
    constructor
    · intro h c hc
      have := h (max (-c) 0) (List.mem_map_of_mem _ hc)
      rw [max_eq_right_iff] at this
      linarith
    · intro h x hx
      rw [List.mem_map] at hx
      obtain ⟨c, hc, hcx⟩ := hx
      rw [← hcx, max_eq_right_iff]
      linarith [h c hc]
  have hfl := wilder_avg_eq_zero_iff period hp losses hlossnn
  have hflnn : 0 ≤ (losses.drop period).foldl (wilderStep period)
      ((losses.take period).sum / (period : ℚ)) := by
    apply wilder_foldl_nonneg period (by omega) _ _
      (div_nonneg (List.sum_nonneg (fun z hz => hlossnn z (List.mem_of_mem_take hz))) (by positivity))
    exact fun z hz => hlossnn z (List.mem_of_mem_drop hz)
  have hfgnn : 0 ≤ (gains.drop period).foldl (wilderStep period)
      ((gains.take period).sum / (period : ℚ)) := by
    apply wilder_foldl_nonneg period (by omega) _ _
      (div_nonneg (List.sum_nonneg (fun z hz => hgainnn z (List.mem_of_mem_take hz))) (by positivity))
    exact fun z hz => hgainnn z (List.mem_of_mem_drop hz)
  by_cases hz : (losses.drop period).foldl (wilderStep period)
      ((losses.take period).sum / (period : ℚ)) = 0
  · rw [if_pos hz]
    refine ⟨by norm_num, le_refl _, ?_⟩
    constructor
    · intro _
      exact hlosszero.mp (hfl.mp hz)
    · intro _
      rfl
  · rw [if_neg hz]
    have hflpos : 0 < (losses.drop period).foldl (wilderStep period)
        ((losses.take period).sum / (period : ℚ)) := lt_of_le_of_ne hflnn (Ne.symm hz)
    set fg := (gains.drop period).foldl (wilderStep period)
      ((gains.take period).sum / (period : ℚ)) with hfg
    set fl := (losses.drop period).foldl (wilderStep period)
      ((losses.take period).sum / (period : ℚ)) with hfld
    have hrs : 0 ≤ fg / fl := div_nonneg hfgnn (le_of_lt hflpos)
    have hden : (0 : ℚ) < 1 + fg / fl := by linarith
    have hfrac_pos : 0 < 100 / (1 + fg / fl) := by positivity
    have hfrac_le : 100 / (1 + fg / fl) ≤ 100 := by
      rw [div_le_iff₀ hden]
      nlinarith
    refine ⟨by linarith, by linarith, ?_⟩
    constructor
    · intro habs
      exfalso
      have : 100 / (1 + fg / fl) = 0 := by linarith
      rw [this] at hfrac_pos
      exact lt_irrefl _ hfrac_pos
    · intro hall
      exfalso
      exact hz (hfl.mpr (hlosszero.mpr hall))


/-- An all-at-one-price candle used for concrete indicator inputs. -/
def c6Candle (ts : ℕ) (price : ℚ) : Candle :=
  { symbol := "BTC", timestamp := ts, openP := price, high := price, low := price,
    close := price, volume := 1 }

/-- C6, witness: closes 1, 2, 3 with period 2 — RSI is 100 and the no-loss
condition holds. -/
theorem c6_rsi_range_and_hundred_witness :
    2 ≤ 2 ∧ 2 + 1 ≤ ([c6Candle 0 1, c6Candle 1 2, c6Candle 2 3] : List Candle).length ∧
      ∃ r, calculateRsi [c6Candle 0 1, c6Candle 1 2, c6Candle 2 3] 2 = Except.ok r ∧
        0 ≤ r ∧ r ≤ 100 ∧
        (r = 100 ↔ ∀ c ∈ rsiChanges (([c6Candle 0 1, c6Candle 1 2, c6Candle 2 3] : List Candle).map Candle.close), 0 ≤ c) :=
  ⟨by omega, by simp [c6Candle], c6_rsi_range_and_hundred [c6Candle 0 1, c6Candle 1 2, c6Candle 2 3] 2
    (by omega) (by simp [c6Candle])⟩

/-- The true-range list of `calculate_atr`: for each candle after the first,
`max(high-low, |high-prevClose|, |low-prevClose|)`. -/
def trueRangesFrom (prevClose : ℚ) : List Candle → List ℚ
  | [] => []
  | c :: rest =>
    max (c.high - c.low) (max |c.high - prevClose| |c.low - prevClose|) :: trueRangesFrom c.close rest

/-- `calculate_atr` from `src/core/indicators.py`: Wilder-smoothed true
ranges with the `_ensure_length(period+1)` guard. -/
def calculateAtr (candles : List Candle) (period : ℕ) : Except String ℚ :=
  if candles.length < period + 1 then .error "ATR 계산을 위한 캔들 부족"
  else
    match candles with
    | [] => .error "ATR 계산을 위한 캔들 부족"
    | c0 :: rest =>
      let trs := trueRangesFrom c0.close rest
      .ok ((trs.drop period).foldl (wilderStep period) ((trs.take period).sum / (period : ℚ)))

/-- `calculate_volume_moving_average`: simple average of the last `period`
volumes. -/
def calculateVolumeMovingAverage (candles : List Candle) (period : ℕ) : Except String ℚ :=
  if candles.length < period then .error "거래량 이동평균 계산을 위한 캔들 부족"
  else .ok (((candles.map Candle.volume).drop (candles.length - period)).sum / (period : ℚ))

/-- `calculate_volume_ratio`: last volume over its moving average, 0 when the
average is zero. -/
def calculateVolumeRatio (candles : List Candle) (period : ℕ) : Except String ℚ :=
  if candles.length < period then .error "거래량 비율 계산을 위한 캔들 부족"
  else
    match calculateVolumeMovingAverage candles period with
    | .error e => .error e
    | .ok volumeMa =>
      .ok (if volumeMa = 0 then 0 else ((candles.getLast?.map Candle.volume).getD 0) / volumeMa)



/-- `SignalType` from `src/data/models.py` as consumed by the signal
engine. -/
inductive SignalType where
  | buy
  | sell
  | hold
deriving DecidableEq, Repr

/-- `SignalDecision` from `src/core/signals.py`. -/
structure SignalDecision where
  symbol : String
  signalType : SignalType
  price : ℚ
  strength : ℚ
  rsi : Option ℚ
  atr : Option ℚ
  volumeRatio : Option ℚ
  reasons : List String
  timestamp : ℕ
deriving DecidableEq, Repr

/-- `SignalGenerator._build_decision`: clamps strength into [0, 1]. -/
def buildDecision (symbol : String) (signalType : SignalType) (price strength : ℚ)
    (rsi atr volumeRatio : Option ℚ) (reasons : List String) (timestamp : ℕ) : SignalDecision :=
  { symbol := symbol,
    signalType := signalType,
    price := price,
    strength := max (min strength 1) 0,
    rsi := rsi,
    atr := atr,
    volumeRatio := volumeRatio,
    reasons := reasons,
    timestamp := timestamp }

/-- `SignalGenerator._hold`: a HOLD decision with strength 0 and the given
indicator fields. -/
def holdDecision (symbol : String) (price : ℚ) (timestamp : ℕ)
    (rsi atr volumeRatio : Option ℚ) : SignalDecision :=
  buildDecision symbol .hold price 0 rsi atr volumeRatio ["조건 불충족"] timestamp

/-- `SignalGenerator._compute_previous_ema`: none when the series is not
longer than the period, else the EMA of all but the last candle. -/
def computePreviousEma (candles : List Candle) (period : ℕ) : Option ℚ :=
  if candles.length ≤ period then none
  else some (emaOf ((candles.dropLast).map Candle.close) period)

/-- `SignalGenerator._evaluate_buy`: golden cross AND RSI band AND volume
ratio, else HOLD; strength is the mean of the three normalized
components. -/
def evaluateBuy (symbol : String) (price : ℚ) (timestamp : ℕ)
    (emaShort emaLong : ℚ) (prevShort prevLong : Option ℚ)
    (rsi atr volumeRatio : ℚ) (params : StrategyParameters) : SignalDecision :=
  let goldenCross :=
    match prevShort, prevLong with
    | some ps, some pl => decide (ps ≤ pl) && decide (emaLong < emaShort)
    | _, _ => false
  let rsiOk := decide (params.rsiBuyMin ≤ rsi ∧ rsi ≤ params.rsiBuyMax)
  let volumeOk := decide (params.volumeRatioThreshold ≤ volumeRatio)
  let reasons := (if goldenCross then ["EMA 골든크로스"] else []) ++
    (if rsiOk then ["RSI 필터 통과"] else []) ++
    (if volumeOk then ["거래량 증가 확인"] else [])
  if goldenCross && rsiOk && volumeOk then
    let strength := ((emaShort - emaLong) / emaLong +
      (rsi - params.rsiBuyMin) / (params.rsiBuyMax - params.rsiBuyMin) +
      min (volumeRatio / params.volumeRatioThreshold) 2) / 3
    buildDecision symbol .buy price strength (some rsi) (some atr) (some volumeRatio) reasons timestamp
  else
    holdDecision symbol price timestamp (some rsi) (some atr) (some volumeRatio)

/-- `SignalGenerator._evaluate_sell`: five independent triggers; SELL with
strength fired/5 when any fires, else HOLD. -/
def evaluateSell (symbol : String) (price : ℚ) (timestamp : ℕ)
    (emaShort emaLong : ℚ) (prevShort prevLong : Option ℚ)
    (rsi atr volumeRatio positionAvg : ℚ) (params : StrategyParameters)
    (candles : List Candle) : SignalDecision :=
  let deathCross :=
    match prevShort, prevLong with
    | some ps, some pl => decide (pl ≤ ps) && decide (emaShort < emaLong)
    | _, _ => false
  let targetHit := decide (positionAvg * (1 + params.targetProfitPct) ≤ price)
  let stopHit := decide (price ≤ positionAvg * (1 - params.stopLossPct))
  let recentHigh :=
    (((candles.drop (candles.length - params.atrPeriod)).map Candle.high).max?).getD price
  let trailingTrigger := decide (price ≤ recentHigh - atr * params.trailingAtrMultiplier)
  let rsiConfirm := decide (rsi ≤ params.rsiSellThreshold ∨ params.rsiOverbought ≤ rsi)
  let reasons := (if deathCross then ["EMA 데드크로스"] else []) ++
    (if targetHit then ["목표 수익률 도달"] else []) ++
    (if stopHit then ["손절 조건 충족"] else []) ++
    (if trailingTrigger then ["ATR 트레일링 스탑"] else []) ++
    (if rsiConfirm then ["RSI 청산 시그널"] else [])
  let firedCount : ℕ := (if deathCross then 1 else 0) + (if targetHit then 1 else 0) +
    (if stopHit then 1 else 0) + (if trailingTrigger then 1 else 0) + (if rsiConfirm then 1 else 0)
  if deathCross || targetHit || stopHit || trailingTrigger || rsiConfirm then
    buildDecision symbol .sell price ((firedCount : ℚ) / 5)
      (some rsi) (some atr) (some volumeRatio) reasons timestamp
  else
    holdDecision symbol price timestamp (some rsi) (some atr) (some volumeRatio)

/-- `SignalGenerator.generate` from `src/core/signals.py`: empty candles
raise `ValueError`; any indicator `ValueError` (insufficient data) is caught
and degraded to a HOLD with null indicator fields; otherwise the sell branch
runs when the portfolio holds the symbol, the buy branch when it does not.
The indicator cache is modelled as a fresh read-through cache (every value
computed). -/
def generate (symbol : String) (candles : List Candle) (positionAvg : Option ℚ)
    (params : StrategyParameters) : Except String SignalDecision :=
  if hc : candles = [] then .error "캔들 데이터가 필요합니다."
  else
    let last := candles.getLast hc
    match calculateEma candles params.shortEmaPeriod, calculateEma candles params.longEmaPeriod,
      calculateRsi candles params.rsiPeriod, calculateAtr candles params.atrPeriod,
      calculateVolumeRatio candles params.volumeMaPeriod with
    | .ok emaShort, .ok emaLong, .ok rsi, .ok atr, .ok volumeRatio =>
      let prevShort := computePreviousEma candles params.shortEmaPeriod
      let prevLong := computePreviousEma candles params.longEmaPeriod
      match positionAvg with
      | some avg =>
        .ok (evaluateSell symbol last.close last.timestamp emaShort emaLong prevShort prevLong
          rsi atr volumeRatio avg params candles)
      | none =>
        .ok (evaluateBuy symbol last.close last.timestamp emaShort emaLong prevShort prevLong
          rsi atr volumeRatio params)
    | _, _, _, _, _ =>
      .ok (holdDecision symbol last.close last.timestamp none none none)

/-- Some indicator in `generate` lacks candles: EMA needs `period`, RSI/ATR
need `period+1`, the volume ratio needs `period` candles. -/
def insufficientData (candles : List Candle) (params : StrategyParameters) : Prop :=
  candles.length < params.shortEmaPeriod ∨ candles.length < params.longEmaPeriod ∨
    candles.length < params.rsiPeriod + 1 ∨ candles.length < params.atrPeriod + 1 ∨
    candles.length < params.volumeMaPeriod

/-- All indicator periods are at least 1, as every validated parameter set
guarantees; with a zero period Python's seed average would divide by
`Decimal(0)`, which raises `DivisionByZero` rather than the `ValueError` the
degrade policy catches, so the claim lives on positive periods. -/
def positivePeriods (params : StrategyParameters) : Prop :=
  1 ≤ params.shortEmaPeriod ∧ 1 ≤ params.longEmaPeriod ∧ 1 ≤ params.rsiPeriod ∧
    1 ≤ params.atrPeriod ∧ 1 ≤ params.volumeMaPeriod

/-- C5: for every non-empty candle sequence on which some indicator lacks
candles, `generate` returns (no exception) a HOLD decision whose rsi, atr and
volume-ratio fields are all null, for any portfolio position and any
parameters with positive indicator periods. -/
theorem c5_insufficient_data_holds (symbol : String) (candles : List Candle) (positionAvg : Option ℚ)
    (params : StrategyParameters) (hpos : positivePeriods params) (hne : candles ≠ [])
    (hins : insufficientData candles params) :
    ∃ d, generate symbol candles positionAvg params = Except.ok d ∧
      d.signalType = .hold ∧ d.rsi = none ∧ d.atr = none ∧ d.volumeRatio = none := by
  have hmain : generate symbol candles positionAvg params =
      Except.ok (holdDecision symbol (candles.getLast hne).close
        (candles.getLast hne).timestamp none none none) := by
    rw [generate, dif_neg hne]
    cases h1 : calculateEma candles params.shortEmaPeriod with
    | error e1 => rfl
    | ok v1 =>
      cases h2 : calculateEma candles params.longEmaPeriod with
      | error e2 => rfl
      | ok v2 =>
        cases h3 : calculateRsi candles params.rsiPeriod with
        | error e3 => rfl
        | ok v3 =>
          cases h4 : calculateAtr candles params.atrPeriod with
          | error e4 => rfl
          | ok v4 =>
            cases h5 : calculateVolumeRatio candles params.volumeMaPeriod with
            | error e5 => rfl
            | ok v5 =>
              exfalso
              rcases hins with h | h | h | h | h
              · rw [calculateEma, if_pos h] at h1; cases h1
              · rw [calculateEma, if_pos h] at h2; cases h2
              · rw [calculateRsi, if_pos h] at h3; cases h3
              · rw [calculateAtr.eq_def, if_pos h] at h4; cases h4
              · rw [calculateVolumeRatio, if_pos h] at h5; cases h5
  exact ⟨_, hmain, rfl, rfl, rfl, rfl⟩

/-- C5, witness: a single candle with the default 20-candle short EMA
period. -/
theorem c5_insufficient_data_holds_witness :
    positivePeriods {} ∧ ([c6Candle 0 1] : List Candle) ≠ [] ∧
      insufficientData [c6Candle 0 1] {} ∧
      ∃ d, generate "BTC" [c6Candle 0 1] none {} = Except.ok d ∧
        d.signalType = .hold ∧ d.rsi = none ∧ d.atr = none ∧ d.volumeRatio = none :=
  ⟨by constructor <;> simp, by simp, Or.inl (by simp [c6Candle]),
    c5_insufficient_data_holds "BTC" [c6Candle 0 1] none {}
      (by constructor <;> simp) (by simp) (Or.inl (by simp [c6Candle]))⟩

/-- C10: calling `generate` with an empty candle sequence raises `ValueError`
before any indicator computation — it never returns a `SignalDecision`; the
insufficient-data degrade policy does not cover the empty input. -/
theorem c10_empty_candles_error (symbol : String) (positionAvg : Option ℚ) (params : StrategyParameters) :
    generate symbol [] positionAvg params = Except.error "캔들 데이터가 필요합니다." := by
  rw [generate]
  rfl


end Bitt
